import Mathlib

/-!
Shallow embedding of the playstore_crawler work-queue core
(`db_interface.py`, `main.py`, `my_model/crawl_task.py`,
`my_tools/file_tools.py`) and proofs about it.

The MongoDB collection `crawler_queue` is modelled as a `List Task`; the
store primitive `find_one_and_update` becomes an explicit function on the
list that returns the pre-update document and the updated list.  Timestamps
(`time.time()`) are modelled as integers.  Python `None`-able fields become
`Option`.
-/

namespace PlaystoreCrawler

/-- Task kind string for similar-apps tasks (`CrawlTask.SIMILAR.value`). -/
def CRAWL_SIMILAR : String := "CRAWL_SIMILAR"

/-- Task kind string for same-creator tasks (`CrawlTask.CREATOR.value`). -/
def CRAWL_CREATOR : String := "CRAWL_CREATOR"

/-- Task kind string for app-details tasks (`CrawlTask.DETAILS.value`). -/
def CRAWL_DETAILS : String := "CRAWL_DETAILS"

/-- A document of the `crawler_queue` collection: `_id`, the `task` kind
string, the `data` key, the `priority` used by the claim sort, the
`start_time` lease timestamp, the `end_time` completion timestamp, and the
recorded `error` (an HTTP status). -/
structure Task where
  id : Nat
  task : String
  data : String
  priority : Int
  start_time : Option Int
  end_time : Option Int
  error : Option Nat
deriving Repr, DecidableEq

/-- Mongo filter `{"start_time": None}` of `get_crawl_task`: matches
documents whose `start_time` is absent. -/
def isPendingTask (t : Task) : Bool :=
  t.start_time.isNone

/-- Mongo filter `{"start_time": {"$lt": deadline}, "end_time": None}` of
`get_crawl_task`'s second query. -/
def isExpiredTask (deadline : Int) (t : Task) : Bool :=
  (match t.start_time with
   | some s => decide (s < deadline)
   | none => false) && t.end_time.isNone

/-- `find_one_and_update` without a sort option: walks the collection in
natural order, updates the first document matching `p` with `f`, and
returns the pre-update document together with the updated collection. -/
def fouFirst {α : Type} (p : α → Bool) (f : α → α) : List α → Option α × List α
  | [] => (none, [])
  | x :: xs =>
    if p x then (some x, f x :: xs)
    else
      let r := fouFirst p f xs
      (r.1, x :: r.2)

/-- The document selection of `find_one_and_update({"start_time": None}, ...,
sort=[('priority', DESCENDING)])`: the position and value of a pending
document of maximal priority (first such position on ties). -/
def findOneSorted : List Task → Option (Nat × Task)
  | [] => none
  | t :: ts =>
    if isPendingTask t then
      match findOneSorted ts with
      | none => some (0, t)
      | some (i, u) =>
        if t.priority < u.priority then some (i + 1, u) else some (0, t)
    else
      match findOneSorted ts with
      | none => none
      | some (i, u) => some (i + 1, u)

/-- The `{"$set": {"start_time": time.time()}}` update. -/
def markLeased (now : Int) (t : Task) : Task :=
  { t with start_time := some now }

/-- `get_crawl_task` of `db_interface.py`: claim a pending task of maximal
priority and set its `start_time`; if none is pending, claim the first
leased-but-expired, uncompleted task instead.  Returns the pre-update
document and the updated queue. -/
def get_crawl_task (q : List Task) (now D : Int) : Option Task × List Task :=
  match findOneSorted q with
  | some (i, t) => (some t, q.set i (markLeased now t))
  | none => fouFirst (isExpiredTask (now - D)) (markLeased now) q

/-- The update of `set_crawl_task_completed`: set `end_time`, and `error`
only when one is given. -/
def markCompleted (now : Int) (error : Option Nat) (t : Task) : Task :=
  match error with
  | some e => { t with end_time := some now, error := some e }
  | none => { t with end_time := some now }

/-- `set_crawl_task_completed` of `db_interface.py` (the updated queue;
the not-found case only logs). -/
def set_crawl_task_completed (q : List Task) (task_id : Nat) (error : Option Nat)
    (now : Int) : List Task :=
  (fouFirst (fun t => decide (t.id = task_id)) (markCompleted now error) q).2

/-- The `{"$unset": {"start_time": "", "end_time": ""}}` update of
`reset_crawl_task`. -/
def clearLease (t : Task) : Task :=
  { t with start_time := none, end_time := none }

/-- `reset_crawl_task` of `db_interface.py` (the updated queue; the
not-found case only logs). -/
def reset_crawl_task (q : List Task) (task_id : Nat) : List Task :=
  (fouFirst (fun t => decide (t.id = task_id)) clearLease q).2

/-- `set_crawl_task_priority` of `db_interface.py`: `update_many` setting
`priority` on every document with the given `task` kind and `data` in
`datas`. -/
def set_crawl_task_priority (q : List Task) (task_type : String)
    (datas : List String) (priority : Int) : List Task :=
  q.map (fun t =>
    if t.task = task_type ∧ t.data ∈ datas then { t with priority := priority } else t)

/-- `increase_priority` of `main.py`, with its default `priority=10`. -/
def increase_priority (q : List Task) (packages : List String) : List Task :=
  set_crawl_task_priority q CRAWL_DETAILS packages 10

/-! ### Characterization of the store primitives -/

theorem fouFirst_fst_none_iff {α : Type} (p : α → Bool) (f : α → α) (l : List α) :
    (fouFirst p f l).1 = none ↔ ∀ x ∈ l, p x = false := by
  induction l with
  | nil => simp [fouFirst]
  | cons x xs ih =>
    by_cases hx : p x = true
    · simp [fouFirst, hx]
    · simp only [Bool.not_eq_true] at hx
      simp [fouFirst, hx, ih]

theorem fouFirst_snd_of_none {α : Type} (p : α → Bool) (f : α → α) (l : List α)
    (h : (fouFirst p f l).1 = none) : (fouFirst p f l).2 = l := by
  induction l with
  | nil => rfl
  | cons x xs ih =>
    by_cases hx : p x = true
    · simp [fouFirst, hx] at h
    · simp only [Bool.not_eq_true] at hx
      simp only [fouFirst, hx, Bool.false_eq_true, if_false] at h ⊢
      simp [ih h]

theorem fouFirst_some {α : Type} (p : α → Bool) (f : α → α) (l : List α) (x : α)
    (h : (fouFirst p f l).1 = some x) :
    p x = true ∧ ∃ i, l[i]? = some x ∧ (fouFirst p f l).2 = l.set i (f x) ∧
      ∀ j y, j < i → l[j]? = some y → p y = false := by
  induction l with
  | nil => simp [fouFirst] at h
  | cons a as ih =>
    by_cases ha : p a = true
    · simp only [fouFirst, ha, if_true] at h ⊢
      obtain rfl : a = x := by simpa using h
      refine ⟨ha, 0, by simp, by simp, ?_⟩
      intro j y hj
      omega
    · simp only [Bool.not_eq_true] at ha
      simp only [fouFirst, ha, Bool.false_eq_true, if_false] at h ⊢
      obtain ⟨hp, i, hget, hset, hbefore⟩ := ih h
      refine ⟨hp, i + 1, by simpa using hget, by simp [hset], ?_⟩
      intro j y hj hy
      cases j with
      | zero =>
        obtain rfl : a = y := by simpa using hy
        exact ha
      | succ j' =>
        exact hbefore j' y (by omega) (by simpa using hy)

theorem findOneSorted_none_iff (q : List Task) :
    findOneSorted q = none ↔ ∀ t ∈ q, isPendingTask t = false := by
  induction q with
  | nil => simp [findOneSorted]
  | cons t ts ih =>
    by_cases ht : isPendingTask t = true
    · constructor
      · intro hco
        exfalso
        cases hrec : findOneSorted ts with
        | none => simp [findOneSorted, ht, hrec] at hco
        | some r =>
          simp only [findOneSorted, ht, if_true, hrec] at hco
          split at hco <;> simp at hco
      · intro hall
        exact absurd (hall t (by simp)) (by simp [ht])
    · simp only [Bool.not_eq_true] at ht
      cases hrec : findOneSorted ts with
      | none =>
        simp only [findOneSorted, ht, Bool.false_eq_true, if_false, hrec]
        simp only [hrec, true_iff] at ih
        constructor
        · intro _ a hma
          rcases List.mem_cons.mp hma with rfl | hma'
          · exact ht
          · exact ih a hma'
        · intro _
          trivial
      | some r =>
        simp only [findOneSorted, ht, Bool.false_eq_true, if_false, hrec]
        constructor
        · intro hco
          simp at hco
        · intro hall
          have hn : findOneSorted ts = none :=
            ih.mpr (fun a hma => hall a (by simp [hma]))
          simp [hrec] at hn

theorem findOneSorted_some (q : List Task) (i : Nat) (t : Task)
    (h : findOneSorted q = some (i, t)) :
    q[i]? = some t ∧ isPendingTask t = true ∧
      ∀ u ∈ q, isPendingTask u = true → u.priority ≤ t.priority := by
  induction q generalizing i t with
  | nil => simp [findOneSorted] at h
  | cons a as ih =>
    by_cases ha : isPendingTask a = true
    · cases hrec : findOneSorted as with
      | none =>
        simp only [findOneSorted, ha, if_true, hrec] at h
        injection h with h2
        injection h2 with h3 h4
        subst h3
        subst h4
        refine ⟨by simp, ha, ?_⟩
        intro u hu hpu
        rcases List.mem_cons.mp hu with rfl | hu'
        · exact le_refl _
        · exact absurd hpu (by simp [(findOneSorted_none_iff as).mp hrec u hu'])
      | some r =>
        obtain ⟨j, u⟩ := r
        obtain ⟨hjget, hju, hjmax⟩ := ih j u hrec
        by_cases hlt : a.priority < u.priority
        · simp only [findOneSorted, ha, if_true, hrec, hlt, if_true] at h
          injection h with h2
          injection h2 with h3 h4
          subst h3
          subst h4
          refine ⟨by simpa using hjget, hju, ?_⟩
          intro v hv hpv
          rcases List.mem_cons.mp hv with rfl | hv'
          · exact le_of_lt hlt
          · exact hjmax v hv' hpv
        · simp only [findOneSorted, ha, if_true, hrec, hlt, if_false] at h
          injection h with h2
          injection h2 with h3 h4
          subst h3
          subst h4
          refine ⟨by simp, ha, ?_⟩
          intro v hv hpv
          rcases List.mem_cons.mp hv with rfl | hv'
          · exact le_refl _
          · exact le_trans (hjmax v hv' hpv) (not_lt.mp hlt)
    · simp only [Bool.not_eq_true] at ha
      cases hrec : findOneSorted as with
      | none =>
        simp [findOneSorted, ha, hrec] at h
      | some r =>
        obtain ⟨j, u⟩ := r
        simp only [findOneSorted, ha, Bool.false_eq_true, if_false, hrec] at h
        injection h with h2
        injection h2 with h3 h4
        subst h3
        subst h4
        obtain ⟨hjget, hju, hjmax⟩ := ih j u hrec
        refine ⟨by simpa using hjget, hju, ?_⟩
        intro v hv hpv
        rcases List.mem_cons.mp hv with rfl | hv'
        · exact absurd hpv (by simp [ha])
        · exact hjmax v hv' hpv

theorem get_crawl_task_isSome_of_pending (q : List Task) (now D : Int) (u : Task)
    (hu : u ∈ q) (hp : isPendingTask u = true) :
    ((get_crawl_task q now D).1).isSome = true := by
  cases hfos : findOneSorted q with
  | some r =>
    obtain ⟨i, t⟩ := r
    simp [get_crawl_task, hfos]
  | none =>
    exact absurd ((findOneSorted_none_iff q).mp hfos u hu) (by simp [hp])

/-! ### Example tasks used by the concrete witnesses -/

/-- Pending task with priority 1 (spec's priority example `[1, 5, 3]`). -/
def exTaskA : Task := ⟨1, CRAWL_DETAILS, "a", 1, none, none, none⟩

/-- Pending task with priority 5. -/
def exTaskB : Task := ⟨2, CRAWL_DETAILS, "b", 5, none, none, none⟩

/-- Pending task with priority 3. -/
def exTaskC : Task := ⟨3, CRAWL_DETAILS, "c", 3, none, none, none⟩

/-- Queue holding pending tasks with priorities `[1, 5, 3]`. -/
def exQueue : List Task := [exTaskA, exTaskB, exTaskC]

/-- Task leased at time 5, not yet completed. -/
def exLeased : Task := ⟨4, CRAWL_DETAILS, "d", 0, some 5, none, none⟩

/-- C1: `get_crawl_task` first selects a pending (`start_time` absent) task
of maximal priority and sets its `start_time` to now; only when no pending
task exists does it select a leased-but-expired, uncompleted task and
refresh its `start_time`; it returns the selected task's pre-update
snapshot, or `none` when no task qualifies under either rule (leaving the
queue unchanged). -/
theorem claim_two_phase_characterization (q : List Task) (now D : Int) :
    (∀ t, (get_crawl_task q now D).1 = some t →
      t ∈ q ∧
      ((isPendingTask t = true ∧
          ∀ u ∈ q, isPendingTask u = true → u.priority ≤ t.priority) ∨
        ((∀ u ∈ q, isPendingTask u = false) ∧ isExpiredTask (now - D) t = true)) ∧
      ∃ i, q[i]? = some t ∧
        (get_crawl_task q now D).2 = q.set i { t with start_time := some now }) ∧
    ((get_crawl_task q now D).1 = none →
      (∀ u ∈ q, isPendingTask u = false ∧ isExpiredTask (now - D) u = false) ∧
      (get_crawl_task q now D).2 = q) ∧
    ((∃ u ∈ q, isPendingTask u = true ∨ isExpiredTask (now - D) u = true) →
      (get_crawl_task q now D).1 ≠ none) := by
  cases hfos : findOneSorted q with
  | some r =>
    obtain ⟨i, t0⟩ := r
    obtain ⟨hget, hpend, hmax⟩ := findOneSorted_some q i t0 hfos
    refine ⟨?_, ?_, ?_⟩
    · intro t ht
      simp only [get_crawl_task, hfos] at ht ⊢
      obtain rfl : t0 = t := by simpa using ht
      exact ⟨List.getElem?_mem hget, Or.inl ⟨hpend, hmax⟩, i, hget, rfl⟩
    · intro ht
      simp [get_crawl_task, hfos] at ht
    · intro _
      simp [get_crawl_task, hfos]
  | none =>
    have hnp : ∀ u ∈ q, isPendingTask u = false := (findOneSorted_none_iff q).mp hfos
    cases hff : (fouFirst (isExpiredTask (now - D)) (markLeased now) q).1 with
    | some t0 =>
      obtain ⟨hexp, i, hget, hset, _⟩ :=
        fouFirst_some (isExpiredTask (now - D)) (markLeased now) q t0 hff
      refine ⟨?_, ?_, ?_⟩
      · intro t ht
        simp only [get_crawl_task, hfos, hff] at ht
        obtain rfl : t0 = t := by simpa using ht
        refine ⟨List.getElem?_mem hget, Or.inr ⟨hnp, hexp⟩, i, hget, ?_⟩
        simp only [get_crawl_task, hfos]
        exact hset
      · intro ht
        simp [get_crawl_task, hfos, hff] at ht
      · intro _
        simp only [get_crawl_task, hfos, hff]
        simp
    | none =>
      have hne : ∀ u ∈ q, isExpiredTask (now - D) u = false :=
        (fouFirst_fst_none_iff (isExpiredTask (now - D)) (markLeased now) q).mp hff
      refine ⟨?_, ?_, ?_⟩
      · intro t ht
        simp [get_crawl_task, hfos, hff] at ht
      · intro _
        refine ⟨fun u hu => ⟨hnp u hu, hne u hu⟩, ?_⟩
        simp only [get_crawl_task, hfos]
        exact fouFirst_snd_of_none _ _ q hff
      · rintro ⟨u, hu, hor⟩
        rcases hor with hor | hor
        · exact absurd (hnp u hu) (by simp [hor])
        · exact absurd (hne u hu) (by simp [hor])

/-- C1 witness: on the spec's `[1, 5, 3]` priority example the claim
returns the priority-5 task, and the characterization theorem applies. -/
theorem claim_two_phase_characterization_witness :
    (get_crawl_task exQueue 100 10).1 = some exTaskB ∧
    (get_crawl_task exQueue 100 10).1 ≠ none := by
  refine ⟨by decide, ?_⟩
  exact (claim_two_phase_characterization exQueue 100 10).2.2
    ⟨exTaskB, by decide, Or.inl (by decide)⟩

/-- C2: on queues satisfying the task-state invariant (`end_time` set only
on started tasks), `get_crawl_task` never returns a done task and never
returns a leased, not-yet-expired task; and a task leased at `T` with
duration `D`, still uncompleted, is claimable exactly when more than `D`
has elapsed since `T`. -/
theorem claim_skips_done_and_unexpired :
    (∀ (q : List Task) (now D : Int),
      (∀ u ∈ q, u.end_time.isSome = true → u.start_time.isSome = true) →
      ∀ t, (get_crawl_task q now D).1 = some t →
        t.end_time = none ∧
        (t.start_time = none ∨ ∃ s, t.start_time = some s ∧ s < now - D)) ∧
    (∀ (t : Task) (T now D : Int), t.start_time = some T → t.end_time = none →
      ((get_crawl_task [t] now D).1 = some t ↔ D < now - T)) := by
  constructor
  · intro q now D hinv t ht
    cases hfos : findOneSorted q with
    | some r =>
      obtain ⟨i, t0⟩ := r
      obtain ⟨hget, hpend, _⟩ := findOneSorted_some q i t0 hfos
      simp only [get_crawl_task, hfos] at ht
      obtain rfl : t0 = t := by simpa using ht
      have hstart : t0.start_time = none := by
        simpa [isPendingTask, Option.isNone_iff_eq_none] using hpend
      refine ⟨?_, Or.inl hstart⟩
      cases hend : t0.end_time with
      | none => rfl
      | some e =>
        have := hinv t0 (List.getElem?_mem hget) (by simp [hend])
        simp [hstart] at this
    | none =>
      cases hff : (fouFirst (isExpiredTask (now - D)) (markLeased now) q).1 with
      | some t0 =>
        obtain ⟨hexp, _, _, _, _⟩ :=
          fouFirst_some (isExpiredTask (now - D)) (markLeased now) q t0 hff
        simp only [get_crawl_task, hfos, hff] at ht
        obtain rfl : t0 = t := by simpa using ht
        simp only [isExpiredTask, Bool.and_eq_true] at hexp
        obtain ⟨hlt, hend⟩ := hexp
        cases hstart : t0.start_time with
        | none => simp [hstart] at hlt
        | some s =>
          refine ⟨by simpa [Option.isNone_iff_eq_none] using hend, Or.inr ⟨s, rfl, ?_⟩⟩
          simpa [hstart] using hlt
      | none =>
        simp [get_crawl_task, hfos, hff] at ht
  · intro t T now D hstart hend
    have hfos : findOneSorted [t] = none := by
      simp [findOneSorted, isPendingTask, hstart]
    simp only [get_crawl_task, hfos]
    by_cases hd : T < now - D
    · have hexp : isExpiredTask (now - D) t = true := by
        simp [isExpiredTask, hstart, hend, hd]
      simp only [fouFirst, hexp, if_true]
      constructor
      · intro _
        omega
      · intro _
        trivial
    · have hexp : isExpiredTask (now - D) t = false := by
        simp [isExpiredTask, hstart, hend]
        omega
      simp only [fouFirst, hexp, Bool.false_eq_true, if_false]
      constructor
      · intro hco
        simp at hco
      · intro hco
        exact absurd hco (by omega)

/-- C2 witness: the invariant part applied to the `[1, 5, 3]` queue and
the expiry-iff part applied to a task leased at time 5 with duration 10 at
time 100. -/
theorem claim_skips_done_and_unexpired_witness :
    (exTaskB.end_time = none) ∧
    ((get_crawl_task [exLeased] 100 10).1 = some exLeased ↔ (10 : Int) < 100 - 5) := by
  constructor
  · exact (claim_skips_done_and_unexpired.1 exQueue 100 10 (by decide) exTaskB (by decide)).1
  · exact claim_skips_done_and_unexpired.2 exLeased 5 100 10 (by decide) (by decide)

/-! ### `find_one_and_update` by unique `_id` -/

theorem fouFirst_eq_of_firstMatch {α : Type} (p : α → Bool) (f : α → α) (l : List α)
    (i : Nat) (x : α) (hget : l[i]? = some x) (hpx : p x = true)
    (hbefore : ∀ j y, j < i → l[j]? = some y → p y = false) :
    fouFirst p f l = (some x, l.set i (f x)) := by
  induction l generalizing i with
  | nil => simp at hget
  | cons a as ih =>
    cases i with
    | zero =>
      obtain rfl : a = x := by simpa using hget
      simp [fouFirst, hpx]
    | succ j =>
      have hpa : p a = false := hbefore 0 a (Nat.succ_pos j) (by simp)
      have hrec := ih j (by simpa using hget)
        (fun k y hk hky => hbefore (k + 1) y (by omega) (by simpa using hky))
      simp [fouFirst, hpa, hrec]

theorem nodup_key_ne {α : Type} (key : α → Nat) (l : List α)
    (hnodup : (l.map key).Nodup) (j i : Nat) (hji : j < i) (y x : α)
    (hy : l[j]? = some y) (hx : l[i]? = some x) : key y ≠ key x := by
  have hpw : l.Pairwise (fun a b => key a ≠ key b) :=
    List.pairwise_map.mp hnodup
  rw [List.pairwise_iff_getElem] at hpw
  obtain ⟨hi, hxe⟩ := List.getElem?_eq_some_iff.mp hx
  obtain ⟨hj, hye⟩ := List.getElem?_eq_some_iff.mp hy
  have hne := hpw j i hj hi hji
  rw [hye, hxe] at hne
  exact hne

theorem fouFirst_key_set {α : Type} (key : α → Nat) (f : α → α) (l : List α)
    (i : Nat) (x : α) (hnodup : (l.map key).Nodup) (hget : l[i]? = some x) :
    fouFirst (fun y => decide (key y = key x)) f l = (some x, l.set i (f x)) := by
  refine fouFirst_eq_of_firstMatch _ f l i x hget (by simp) ?_
  intro j y hj hy
  simpa using nodup_key_ne key l hnodup j i hj y x hy hget

theorem map_key_set {α : Type} (key : α → Nat) (l : List α) (i : Nat) (x y : α)
    (hget : l[i]? = some x) (hkey : key y = key x) :
    (l.set i y).map key = l.map key := by
  induction l generalizing i with
  | nil => simp
  | cons a as ih =>
    cases i with
    | zero =>
      obtain rfl : a = x := by simpa using hget
      simp [hkey]
    | succ j =>
      simp [ih j (by simpa using hget)]

/-- The facts shared by both claim phases: the returned task is a queue
element and either pending or expired, and the updated queue differs only
in that element's `start_time`. -/
theorem get_crawl_task_some_facts (q : List Task) (now D : Int) (t : Task)
    (h : (get_crawl_task q now D).1 = some t) :
    (isPendingTask t = true ∨ isExpiredTask (now - D) t = true) ∧
    ∃ i, q[i]? = some t ∧ (get_crawl_task q now D).2 = q.set i (markLeased now t) := by
  cases hfos : findOneSorted q with
  | some r =>
    obtain ⟨i, t0⟩ := r
    obtain ⟨hget, hpend, _⟩ := findOneSorted_some q i t0 hfos
    simp only [get_crawl_task, hfos] at h
    obtain rfl : t0 = t := by simpa using h
    exact ⟨Or.inl hpend, i, hget, by simp [get_crawl_task, hfos]⟩
  | none =>
    cases hff : (fouFirst (isExpiredTask (now - D)) (markLeased now) q).1 with
    | some t0 =>
      obtain ⟨hexp, i, hget, hset, _⟩ :=
        fouFirst_some (isExpiredTask (now - D)) (markLeased now) q t0 hff
      simp only [get_crawl_task, hfos, hff] at h
      obtain rfl : t0 = t := by simpa using h
      refine ⟨Or.inr hexp, i, hget, ?_⟩
      simp only [get_crawl_task, hfos]
      exact hset
    | none =>
      simp [get_crawl_task, hfos, hff] at h

/-- C7: `reset_crawl_task` clears both `start_time` and `end_time` of the
matching task, returning it to pending, and claiming a task and then
resetting it makes the queue immediately claimable again. -/
theorem reset_restores_pending_claimable :
    (∀ (q : List Task) (i : Nat) (u : Task),
      (q.map Task.id).Nodup → q[i]? = some u →
      reset_crawl_task q u.id = q.set i (clearLease u) ∧
      (clearLease u).start_time = none ∧ (clearLease u).end_time = none ∧
      isPendingTask (clearLease u) = true) ∧
    (∀ (q : List Task) (now D now2 D2 : Int) (t : Task),
      (q.map Task.id).Nodup →
      (get_crawl_task q now D).1 = some t →
      ∃ i : Nat, (reset_crawl_task (get_crawl_task q now D).2 t.id)[i]? =
          some { t with start_time := none, end_time := none } ∧
        ((get_crawl_task (reset_crawl_task (get_crawl_task q now D).2 t.id) now2 D2).1).isSome
          = true) := by
  constructor
  · intro q i u hnodup hget
    refine ⟨?_, rfl, rfl, rfl⟩
    unfold reset_crawl_task
    rw [fouFirst_key_set Task.id clearLease q i u hnodup hget]
  · intro q now D now2 D2 t hnodup hclaim
    obtain ⟨_, i, hget, hset⟩ := get_crawl_task_some_facts q now D t hclaim
    have hnodup1 : ((get_crawl_task q now D).2.map Task.id).Nodup := by
      rw [hset, map_key_set Task.id q i t (markLeased now t) hget rfl]
      exact hnodup
    have hget1 : ((get_crawl_task q now D).2)[i]? = some (markLeased now t) := by
      rw [hset]
      have hi : i < q.length := (List.getElem?_eq_some_iff.mp hget).1
      simp [List.getElem?_set_self (by simpa using hi)]
    have hreset : reset_crawl_task (get_crawl_task q now D).2 t.id =
        (get_crawl_task q now D).2.set i (clearLease (markLeased now t)) := by
      unfold reset_crawl_task
      have hkey := fouFirst_key_set Task.id clearLease ((get_crawl_task q now D).2) i
        (markLeased now t) hnodup1 hget1
      have hid : (markLeased now t).id = t.id := rfl
      rw [hid] at hkey
      rw [hkey]
    have hclear : clearLease (markLeased now t) =
        { t with start_time := none, end_time := none } := rfl
    have hi : i < q.length := (List.getElem?_eq_some_iff.mp hget).1
    have hlen : i < ((get_crawl_task q now D).2).length := by
      rw [hset]
      simpa using hi
    have hget2 : (reset_crawl_task (get_crawl_task q now D).2 t.id)[i]? =
        some { t with start_time := none, end_time := none } := by
      rw [hreset, hclear]
      simp [List.getElem?_set_self hlen]
    refine ⟨i, hget2, ?_⟩
    exact get_crawl_task_isSome_of_pending _ now2 D2 _ (List.getElem?_mem hget2) rfl

/-- C7 witness: resetting the leased example task makes it pending, and
the claim/reset round trip on the `[1, 5, 3]` queue is claimable again. -/
theorem reset_restores_pending_claimable_witness :
    (reset_crawl_task [exLeased] exLeased.id = [clearLease exLeased] ∧
      (clearLease exLeased).start_time = none) ∧
    ((get_crawl_task
        (reset_crawl_task (get_crawl_task exQueue 100 10).2 exTaskB.id) 100 10).1).isSome
      = true := by
  constructor
  · have h := reset_restores_pending_claimable.1 [exLeased] 0 exLeased (by decide) (by decide)
    exact ⟨h.1, h.2.1⟩
  · obtain ⟨i, _, hsome⟩ := reset_restores_pending_claimable.2 exQueue 100 10 100 10 exTaskB
      (by decide) (by decide)
    exact hsome

/-! ### Crawl driver dispatch (`execute_crawl_task`, `crawl_playstore`) -/

/-- Which branch of `execute_crawl_task`'s dispatch dictionary ran. -/
inductive ExecOutcome
  | ranSimilar
  | ranCreator
  | ranDetails
  | warnedUnknown
deriving Repr, DecidableEq

/-- `execute_crawl_task` of `main.py`: dispatch on the task kind through
the `switcher` dictionary, falling back to the warning-only lambda for
unknown kinds.  `handlerError` models the `RequestError` HTTP status a
real handler may raise (the driver records it); the fallback lambda never
raises, so its recorded error is `none`. -/
def execute_crawl_task (handlerError : String → String → Option Nat)
    (task_type task_data : String) : ExecOutcome × Option Nat :=
  if task_type = CRAWL_SIMILAR then (ExecOutcome.ranSimilar, handlerError task_type task_data)
  else if task_type = CRAWL_CREATOR then (ExecOutcome.ranCreator, handlerError task_type task_data)
  else if task_type = CRAWL_DETAILS then (ExecOutcome.ranDetails, handlerError task_type task_data)
  else (ExecOutcome.warnedUnknown, none)

/-- The body of `crawl_playstore`'s loop after a task was claimed and no
interrupt arrives: execute the task, then mark it completed with the
recorded error (if any). -/
def crawl_process_claimed (handlerError : String → String → Option Nat)
    (q : List Task) (t : Task) (now : Int) : ExecOutcome × List Task :=
  let r := execute_crawl_task handlerError t.task t.data
  (r.1, set_crawl_task_completed q t.id r.2 now)

/-- C8: a claimed task whose kind is none of SIMILAR/CREATOR/DETAILS hits
the warning-only fallback, is marked completed with no error recorded, and
is never returned by a later claim: it is permanently retired unexecuted. -/
theorem unknown_kind_task_retired (handlerError : String → String → Option Nat)
    (q : List Task) (t : Task) (i : Nat) (now now2 D2 : Int)
    (hnodup : (q.map Task.id).Nodup) (hget : q[i]? = some t)
    (hk1 : t.task ≠ CRAWL_SIMILAR) (hk2 : t.task ≠ CRAWL_CREATOR)
    (hk3 : t.task ≠ CRAWL_DETAILS) (hleased : t.start_time.isSome = true) :
    (execute_crawl_task handlerError t.task t.data).1 = ExecOutcome.warnedUnknown ∧
    (execute_crawl_task handlerError t.task t.data).2 = none ∧
    (crawl_process_claimed handlerError q t now).2 =
      q.set i { t with end_time := some now } ∧
    ∀ u, (get_crawl_task ((crawl_process_claimed handlerError q t now).2) now2 D2).1 = some u →
      u.id ≠ t.id := by
  have hexec : execute_crawl_task handlerError t.task t.data =
      (ExecOutcome.warnedUnknown, none) := by
    simp [execute_crawl_task, hk1, hk2, hk3]
  have hdone : crawl_process_claimed handlerError q t now =
      (ExecOutcome.warnedUnknown, q.set i { t with end_time := some now }) := by
    unfold crawl_process_claimed
    rw [hexec]
    show (ExecOutcome.warnedUnknown,
        (fouFirst (fun x => decide (x.id = t.id)) (markCompleted now none) q).2) = _
    rw [fouFirst_key_set Task.id (markCompleted now none) q i t hnodup hget]
    rfl
  refine ⟨by rw [hexec], by rw [hexec], by rw [hdone], ?_⟩
  intro u hu hid
  rw [hdone] at hu
  obtain ⟨hpe, j, hj, _⟩ := get_crawl_task_some_facts _ now2 D2 u hu
  have hi : i < q.length := (List.getElem?_eq_some_iff.mp hget).1
  have hmemu : u ∈ q.set i { t with end_time := some now } := List.getElem?_mem hj
  have hmeme : ({ t with end_time := some now } : Task) ∈
      q.set i { t with end_time := some now } :=
    List.getElem?_mem (List.getElem?_set_self (by simpa using hi))
  have hnodup2 : ((q.set i { t with end_time := some now }).map Task.id).Nodup := by
    rw [map_key_set Task.id q i t { t with end_time := some now } hget rfl]
    exact hnodup
  have hue : u = { t with end_time := some now } :=
    List.inj_on_of_nodup_map hnodup2 hmemu hmeme hid
  rcases hpe with hp | he
  · rw [hue] at hp
    simp only [isPendingTask] at hp
    rw [Option.isSome_iff_exists] at hleased
    obtain ⟨s, hs⟩ := hleased
    simp [hs] at hp
  · rw [hue] at he
    simp [isExpiredTask] at he

/-- Task of an unknown kind, already leased. -/
def exUnknown : Task := ⟨8, "CRAWL_BOGUS", "x", 0, some 1, none, none⟩

/-- C8 witness: processing the leased unknown-kind task warns, records no
error, marks it done, and a later claim on the resulting queue returns
nothing at all. -/
theorem unknown_kind_task_retired_witness :
    (execute_crawl_task (fun _ _ => none) exUnknown.task exUnknown.data).1 =
      ExecOutcome.warnedUnknown ∧
    (crawl_process_claimed (fun _ _ => none) [exUnknown] exUnknown 7).2 =
      [{ exUnknown with end_time := some 7 }] := by
  have h := unknown_kind_task_retired (fun _ _ => none) [exUnknown] exUnknown 0 7 100 10
    (by decide) (by decide) (by decide) (by decide) (by decide) (by decide)
  exact ⟨h.1, h.2.2.1⟩

/-- C9: `increase_priority` sets priority to exactly 10 on tasks of kind
DETAILS whose key is in the given package list, and leaves every other
task — SIMILAR, CREATOR, or DETAILS with a key outside the list — fully
unchanged. -/
theorem increase_priority_sets_only_matching (q : List Task) (packages : List String)
    (i : Nat) (hi : i < q.length) :
    (increase_priority q packages).length = q.length ∧
    (q[i].task = CRAWL_DETAILS ∧ q[i].data ∈ packages →
      (increase_priority q packages)[i]? = some { q[i] with priority := 10 }) ∧
    (¬(q[i].task = CRAWL_DETAILS ∧ q[i].data ∈ packages) →
      (increase_priority q packages)[i]? = some q[i]) := by
  have hmap : (increase_priority q packages)[i]? =
      Option.map (fun t => if t.task = CRAWL_DETAILS ∧ t.data ∈ packages
        then { t with priority := 10 } else t) q[i]? := by
    simp [increase_priority, set_crawl_task_priority]
  refine ⟨by simp [increase_priority, set_crawl_task_priority], ?_, ?_⟩
  · intro hcond
    rw [hmap, List.getElem?_eq_getElem hi]
    simp [hcond]
  · intro hcond
    rw [hmap, List.getElem?_eq_getElem hi]
    simp [hcond]

/-- Queue for the C9 witness: a SIMILAR task, a DETAILS task with key in
the set, a DETAILS task with key outside the set. -/
def exPrioQueue : List Task :=
  [⟨10, CRAWL_SIMILAR, "p1", 0, none, none, none⟩,
   ⟨11, CRAWL_DETAILS, "p1", 0, none, none, none⟩,
   ⟨12, CRAWL_DETAILS, "p2", 0, none, none, none⟩]

/-- C9 witness: on the example queue, the matching DETAILS task gets
priority 10 and the SIMILAR task is unchanged. -/
theorem increase_priority_sets_only_matching_witness :
    (increase_priority exPrioQueue ["p1"]).length = exPrioQueue.length ∧
    (increase_priority exPrioQueue ["p1"])[1]? =
      some ⟨11, CRAWL_DETAILS, "p1", 10, none, none, none⟩ ∧
    (increase_priority exPrioQueue ["p1"])[0]? =
      some ⟨10, CRAWL_SIMILAR, "p1", 0, none, none, none⟩ := by
  have h1 := increase_priority_sets_only_matching exPrioQueue ["p1"] 1 (by decide)
  have h0 := increase_priority_sets_only_matching exPrioQueue ["p1"] 0 (by decide)
  refine ⟨h1.1, ?_, ?_⟩
  · have hc := h1.2.1 (by decide)
    simpa [exPrioQueue] using hc
  · have hc := h0.2.2 (by decide)
    simpa [exPrioQueue] using hc

/-! ### Download records (`playstore` collection) and interrupt handling -/

/-- A `playstore` collection document as seen by the download workflow:
`_id`, `docid`, `details.appDetails.versionCode`, and the download lease
fields. -/
structure AppRecord where
  id : Nat
  docid : String
  versionCode : Nat
  download_start_time : Option Int
  download_end_time : Option Int
deriving Repr, DecidableEq

/-- The `{"$unset": {"download_start_time": "", "download_end_time": ""}}`
update of `reset_app_download`. -/
def clearDownloadLease (r : AppRecord) : AppRecord :=
  { r with download_start_time := none, download_end_time := none }

/-- `reset_app_download` of `db_interface.py` (the updated collection). -/
def reset_app_download (rs : List AppRecord) (app_id : Nat) : List AppRecord :=
  (fouFirst (fun r => decide (r.id = app_id)) clearDownloadLease rs).2

/-- `set_app_downloaded` of `db_interface.py` (the updated collection). -/
def set_app_downloaded (rs : List AppRecord) (app_id : Nat) (now : Int) : List AppRecord :=
  (fouFirst (fun r => decide (r.id = app_id))
    (fun r => { r with download_end_time := some now }) rs).2

/-- The `except KeyboardInterrupt` handler of `crawl_playstore`: if a task
is currently held, reset it; otherwise leave the queue untouched (then the
loop breaks). -/
def crawl_interrupt_handler (q : List Task) (held : Option Task) : List Task :=
  match held with
  | none => q
  | some t => reset_crawl_task q t.id

/-- The `except KeyboardInterrupt` handler of `create_apks_pool`: if a
record is currently held, reset its download lease; otherwise leave the
collection untouched. -/
def pool_interrupt_handler (rs : List AppRecord) (held : Option AppRecord) : List AppRecord :=
  match held with
  | none => rs
  | some r => reset_app_download rs r.id

/-- C6: an interrupted driver holding a task (or download record) resets
exactly that item to pending before terminating; holding nothing, it
terminates without resetting anything. -/
theorem interrupt_releases_held_lease :
    (∀ (q : List Task) (i : Nat) (t u : Task),
      (q.map Task.id).Nodup → q[i]? = some u → u.id = t.id →
      crawl_interrupt_handler q (some t) = q.set i (clearLease u) ∧
      isPendingTask (clearLease u) = true ∧ (clearLease u).end_time = none) ∧
    (∀ q : List Task, crawl_interrupt_handler q none = q) ∧
    (∀ (rs : List AppRecord) (i : Nat) (r u : AppRecord),
      (rs.map AppRecord.id).Nodup → rs[i]? = some u → u.id = r.id →
      pool_interrupt_handler rs (some r) = rs.set i (clearDownloadLease u) ∧
      (clearDownloadLease u).download_start_time = none ∧
      (clearDownloadLease u).download_end_time = none) ∧
    (∀ rs : List AppRecord, pool_interrupt_handler rs none = rs) := by
  refine ⟨?_, fun q => rfl, ?_, fun rs => rfl⟩
  · intro q i t u hnodup hget hid
    refine ⟨?_, rfl, rfl⟩
    show reset_crawl_task q t.id = q.set i (clearLease u)
    unfold reset_crawl_task
    rw [← hid, fouFirst_key_set Task.id clearLease q i u hnodup hget]
  · intro rs i r u hnodup hget hid
    refine ⟨?_, rfl, rfl⟩
    show reset_app_download rs r.id = rs.set i (clearDownloadLease u)
    unfold reset_app_download
    rw [← hid, fouFirst_key_set AppRecord.id clearDownloadLease rs i u hnodup hget]

/-- Download record leased at time 2, not yet downloaded. -/
def exRec : AppRecord := ⟨7, "com.app", 3, some 2, none⟩

/-- C6 witness: both handlers applied to singleton stores holding the
leased item, and to held-nothing states. -/
theorem interrupt_releases_held_lease_witness :
    crawl_interrupt_handler [exLeased] (some exLeased) = [clearLease exLeased] ∧
    crawl_interrupt_handler [exLeased] none = [exLeased] ∧
    pool_interrupt_handler [exRec] (some exRec) = [clearDownloadLease exRec] ∧
    pool_interrupt_handler [exRec] none = [exRec] := by
  refine ⟨?_, ?_, ?_, ?_⟩
  · exact (interrupt_releases_held_lease.1 [exLeased] 0 exLeased exLeased
      (by decide) (by decide) rfl).1
  · exact interrupt_releases_held_lease.2.1 [exLeased]
  · exact (interrupt_releases_held_lease.2.2.1 [exRec] 0 exRec exRec
      (by decide) (by decide) rfl).1
  · exact interrupt_releases_held_lease.2.2.2 [exRec]

/-! ### Bulk insert with the `(data, task)` unique index (`dump_to_mongodb`) -/

/-- One entry of a `BulkWriteError`'s `writeErrors` list. -/
structure WriteError where
  code : Nat
  errmsg : String
deriving Repr, DecidableEq

/-- Does a task hit the unique compound index on `(data, task)`? -/
def pairMatches (kind key : String) (t : Task) : Bool :=
  decide (t.task = kind ∧ t.data = key)

/-- Is some task with this `(kind, key)` pair already stored? -/
def hasPair (col : List Task) (kind key : String) : Bool :=
  col.any (pairMatches kind key)

/-- Number of stored tasks with this `(kind, key)` pair. -/
def countPair (col : List Task) (kind key : String) : Nat :=
  (col.filter (pairMatches kind key)).length

/-- `insert_many(entries, False)` (unordered) against the unique
`(data, task)` index: every non-conflicting entry is inserted, every
conflicting entry is dropped and yields a duplicate-key write error
(code 11000); an error never aborts the rest of the batch. -/
def insertManyUnordered (col : List Task) : List Task → List Task × List WriteError
  | [] => (col, [])
  | d :: ds =>
    if hasPair col d.task d.data then
      let r := insertManyUnordered col ds
      (r.1, ⟨11000, "duplicate key error"⟩ :: r.2)
    else
      insertManyUnordered (col ++ [d]) ds

/-- The `for err in bwe.details['writeErrors']` loop of `dump_to_mongodb`:
code 11000 is swallowed, anything else is logged; the loop never aborts. -/
def handleWriteErrors : List WriteError → List String
  | [] => []
  | e :: es =>
    if e.code = 11000 then handleWriteErrors es else e.errmsg :: handleWriteErrors es

/-- `dump_to_mongodb` of `db_interface.py`: no-op on an empty batch,
otherwise bulk-insert and handle the write errors.  Returns the updated
collection and the logged error messages. -/
def dump_to_mongodb (entries : List Task) (target_collection : List Task) :
    List Task × List String :=
  if entries.isEmpty then (target_collection, [])
  else
    let r := insertManyUnordered target_collection entries
    (r.1, handleWriteErrors r.2)

/-- `enqueue_crawl_tasks` of `db_interface.py`. -/
def enqueue_crawl_tasks (crawl_tasks : List Task) (crawlqueue_col : List Task) :
    List Task × List String :=
  dump_to_mongodb crawl_tasks crawlqueue_col

/-- A crawl-task draft `{"data": data, "task": task}` as enqueued by
`main.py` (store-assigned defaults for the other fields). -/
def mkCrawlTask (data task : String) : Task :=
  ⟨0, task, data, 0, none, none, none⟩

theorem dump_to_mongodb_eq (entries col : List Task) :
    dump_to_mongodb entries col =
      ((insertManyUnordered col entries).1,
        handleWriteErrors (insertManyUnordered col entries).2) := by
  cases entries with
  | nil => rfl
  | cons d ds => rfl

theorem mem_insertManyUnordered (col ds : List Task) (t : Task) (ht : t ∈ col) :
    t ∈ (insertManyUnordered col ds).1 := by
  induction ds generalizing col with
  | nil => simpa [insertManyUnordered]
  | cons d rest ih =>
    by_cases hc : hasPair col d.task d.data = true
    · simp only [insertManyUnordered, hc, if_true]
      exact ih col ht
    · simp only [Bool.not_eq_true] at hc
      simp only [insertManyUnordered, hc, Bool.false_eq_true, if_false]
      exact ih (col ++ [d]) (List.mem_append_left _ ht)

theorem hasPair_insertManyUnordered_mono (col ds : List Task) (kind key : String)
    (h : hasPair col kind key = true) :
    hasPair (insertManyUnordered col ds).1 kind key = true := by
  rw [hasPair, List.any_eq_true] at h ⊢
  obtain ⟨t, ht, hp⟩ := h
  exact ⟨t, mem_insertManyUnordered col ds t ht, hp⟩

theorem insertManyUnordered_pair_present (col ds : List Task) :
    ∀ d ∈ ds, hasPair (insertManyUnordered col ds).1 d.task d.data = true := by
  induction ds generalizing col with
  | nil => simp
  | cons a as ih =>
    intro d hd
    rcases List.mem_cons.mp hd with rfl | hd'
    · by_cases hc : hasPair col d.task d.data = true
      · simp only [insertManyUnordered, hc, if_true]
        exact hasPair_insertManyUnordered_mono col as _ _ hc
      · simp only [Bool.not_eq_true] at hc
        simp only [insertManyUnordered, hc, Bool.false_eq_true, if_false]
        refine hasPair_insertManyUnordered_mono (col ++ [d]) as _ _ ?_
        rw [hasPair, List.any_eq_true]
        exact ⟨d, List.mem_append_right _ (by simp), by simp [pairMatches]⟩
    · by_cases hc : hasPair col a.task a.data = true
      · simp only [insertManyUnordered, hc, if_true]
        exact ih col d hd'
      · simp only [Bool.not_eq_true] at hc
        simp only [insertManyUnordered, hc, Bool.false_eq_true, if_false]
        exact ih (col ++ [a]) d hd'

theorem countPair_append (c1 c2 : List Task) (kind key : String) :
    countPair (c1 ++ c2) kind key = countPair c1 kind key + countPair c2 kind key := by
  simp [countPair, List.filter_append]

theorem hasPair_iff_countPair_pos (col : List Task) (kind key : String) :
    hasPair col kind key = true ↔ 0 < countPair col kind key := by
  induction col with
  | nil => simp [hasPair, countPair]
  | cons t ts ih =>
    by_cases hp : pairMatches kind key t = true
    · simp [hasPair, countPair, List.filter_cons, hp]
    · simp only [Bool.not_eq_true] at hp
      have e1 : hasPair (t :: ts) kind key = hasPair ts kind key := by
        simp [hasPair, hp]
      have e2 : countPair (t :: ts) kind key = countPair ts kind key := by
        simp [countPair, List.filter_cons, hp]
      rw [e1, e2]
      exact ih

theorem countPair_eq_zero_of_not_hasPair (col : List Task) (kind key : String)
    (h : hasPair col kind key = false) : countPair col kind key = 0 := by
  by_contra hne
  have hpos : 0 < countPair col kind key := Nat.pos_of_ne_zero hne
  have := (hasPair_iff_countPair_pos col kind key).mpr hpos
  simp [h] at this

theorem countPair_insertManyUnordered_le_one (ds col : List Task) (kind key : String)
    (h : countPair col kind key ≤ 1) :
    countPair (insertManyUnordered col ds).1 kind key ≤ 1 := by
  induction ds generalizing col with
  | nil => simpa [insertManyUnordered]
  | cons d rest ih =>
    by_cases hc : hasPair col d.task d.data = true
    · simp only [insertManyUnordered, hc, if_true]
      exact ih col h
    · simp only [Bool.not_eq_true] at hc
      simp only [insertManyUnordered, hc, Bool.false_eq_true, if_false]
      refine ih (col ++ [d]) ?_
      rw [countPair_append]
      by_cases hdp : pairMatches kind key d = true
      · obtain ⟨h1, h2⟩ : d.task = kind ∧ d.data = key := by simpa [pairMatches] using hdp
        subst h1
        subst h2
        have h0 : countPair col d.task d.data = 0 :=
          countPair_eq_zero_of_not_hasPair col _ _ hc
        have h1' : countPair [d] d.task d.data = 1 := by simp [countPair, pairMatches]
        omega
      · simp only [Bool.not_eq_true] at hdp
        have h1' : countPair [d] kind key = 0 := by
          simp [countPair, List.filter_cons, hdp]
        omega

theorem insertManyUnordered_errors_dup (col ds : List Task) :
    ∀ e ∈ (insertManyUnordered col ds).2, e.code = 11000 := by
  induction ds generalizing col with
  | nil => simp [insertManyUnordered]
  | cons d rest ih =>
    by_cases hc : hasPair col d.task d.data = true
    · simp only [insertManyUnordered, hc, if_true]
      intro e he
      rcases List.mem_cons.mp he with rfl | he'
      · rfl
      · exact ih col e he'
    · simp only [Bool.not_eq_true] at hc
      simp only [insertManyUnordered, hc, Bool.false_eq_true, if_false]
      exact ih (col ++ [d])

theorem handleWriteErrors_eq_filter (errs : List WriteError) :
    handleWriteErrors errs =
      (errs.filter (fun e => decide (e.code ≠ 11000))).map WriteError.errmsg := by
  induction errs with
  | nil => rfl
  | cons e es ih =>
    by_cases hc : e.code = 11000
    · simp [handleWriteErrors, hc, ih]
    · simp [handleWriteErrors, hc, ih]

theorem handleWriteErrors_nil_of_all_dup (errs : List WriteError)
    (h : ∀ e ∈ errs, e.code = 11000) : handleWriteErrors errs = [] := by
  induction errs with
  | nil => rfl
  | cons e es ih =>
    simp [handleWriteErrors, h e (by simp), ih (fun x hx => h x (by simp [hx]))]

/-- C3: the enqueue path bulk-inserts unordered: after the batch, every
draft's `(kind, key)` pair is stored; a collection holding at most one
task per pair keeps that property (colliding drafts are dropped); nothing
already stored is lost; the write-error loop swallows code 11000 and logs
exactly the other errors without aborting; two drafts with an identical
pair new to the collection leave exactly one stored task; duplicate-only
batches log nothing. -/
theorem enqueue_dedup_batch :
    (∀ (ds col : List Task), ∀ d ∈ ds,
      hasPair (enqueue_crawl_tasks ds col).1 d.task d.data = true) ∧
    (∀ (ds col : List Task) (kind key : String),
      countPair col kind key ≤ 1 →
      countPair (enqueue_crawl_tasks ds col).1 kind key ≤ 1) ∧
    (∀ (ds col : List Task), ∀ t ∈ col, t ∈ (enqueue_crawl_tasks ds col).1) ∧
    (∀ errs : List WriteError,
      handleWriteErrors errs =
        (errs.filter (fun e => decide (e.code ≠ 11000))).map WriteError.errmsg) ∧
    (∀ (col : List Task) (d1 d2 : Task), d1.task = d2.task → d1.data = d2.data →
      countPair col d1.task d1.data = 0 →
      countPair (enqueue_crawl_tasks [d1, d2] col).1 d1.task d1.data = 1) ∧
    (∀ (ds col : List Task), (enqueue_crawl_tasks ds col).2 = []) := by
  refine ⟨?_, ?_, ?_, handleWriteErrors_eq_filter, ?_, ?_⟩
  · intro ds col d hd
    rw [enqueue_crawl_tasks, dump_to_mongodb_eq]
    exact insertManyUnordered_pair_present col ds d hd
  · intro ds col kind key h
    rw [enqueue_crawl_tasks, dump_to_mongodb_eq]
    exact countPair_insertManyUnordered_le_one ds col kind key h
  · intro ds col t ht
    rw [enqueue_crawl_tasks, dump_to_mongodb_eq]
    exact mem_insertManyUnordered col ds t ht
  · intro col d1 d2 h1 h2 h0
    rw [enqueue_crawl_tasks, dump_to_mongodb_eq]
    have hc1 : hasPair col d1.task d1.data = false := by
      cases hb : hasPair col d1.task d1.data with
      | false => rfl
      | true =>
        have := (hasPair_iff_countPair_pos col d1.task d1.data).mp hb
        omega
    have hc2 : hasPair (col ++ [d1]) d2.task d2.data = true := by
      rw [← h1, ← h2, hasPair, List.any_eq_true]
      exact ⟨d1, List.mem_append_right _ (by simp), by simp [pairMatches]⟩
    simp only [insertManyUnordered, hc1, Bool.false_eq_true, if_false, hc2, if_true]
    rw [countPair_append]
    have h1' : countPair [d1] d1.task d1.data = 1 := by simp [countPair, pairMatches]
    omega
  · intro ds col
    rw [enqueue_crawl_tasks, dump_to_mongodb_eq]
    exact handleWriteErrors_nil_of_all_dup _ (insertManyUnordered_errors_dup col ds)

/-- C3 witness: enqueueing two identical `(kind, key)` drafts into an
empty collection stores exactly one task and logs nothing. -/
theorem enqueue_dedup_batch_witness :
    countPair (enqueue_crawl_tasks
        [mkCrawlTask "pkg" CRAWL_DETAILS, mkCrawlTask "pkg" CRAWL_DETAILS] []).1
      CRAWL_DETAILS "pkg" = 1 ∧
    (enqueue_crawl_tasks
        [mkCrawlTask "pkg" CRAWL_DETAILS, mkCrawlTask "pkg" CRAWL_DETAILS] []).2 = [] := by
  constructor
  · exact enqueue_dedup_batch.2.2.2.2.1 []
      (mkCrawlTask "pkg" CRAWL_DETAILS) (mkCrawlTask "pkg" CRAWL_DETAILS) rfl rfl (by decide)
  · exact enqueue_dedup_batch.2.2.2.2.2
      [mkCrawlTask "pkg" CRAWL_DETAILS, mkCrawlTask "pkg" CRAWL_DETAILS] []

/-! ### Graph expansion (`dump_data_details`) -/

/-- The dict produced by `crawl_details` and consumed by
`dump_data_details`: the item's package id and creator, plus the optional
cross-reference lists (`"similar" in details` etc. become `Option`). -/
structure DetailsResult where
  docid : String
  creator : String
  similar : Option (List String)
  preInstall : Option (List String)
  postInstall : Option (List String)
deriving Repr, DecidableEq

/-- The `packages_found` accumulation of `dump_data_details`: the
`similar`, `preInstall` and `postInstall` lists when present, in that
order. -/
def packagesFound (details : DetailsResult) : List String :=
  (match details.similar with | some l => l | none => []) ++
  (match details.preInstall with | some l => l | none => []) ++
  (match details.postInstall with | some l => l | none => [])

/-- `dump_data_details` of `main.py` as the pure draft sets it persists:
emit one CREATOR task draft for the creator and one DETAILS task draft per
cross-referenced package id, and one record draft for the item itself. -/
def dump_data_details (details : DetailsResult) : List DetailsResult × List Task :=
  ([details], mkCrawlTask details.creator CRAWL_CREATOR ::
    (packagesFound details).map (fun package => mkCrawlTask package CRAWL_DETAILS))

/-- Number of task drafts with the given kind. -/
def countKind (ts : List Task) (kind : String) : Nat :=
  (ts.filter (fun t => decide (t.task = kind))).length

theorem countKind_cons (t : Task) (ts : List Task) (kind : String) :
    countKind (t :: ts) kind =
      (if t.task = kind then 1 else 0) + countKind ts kind := by
  by_cases h : t.task = kind
  · simp [countKind, List.filter_cons, h]
    omega
  · simp [countKind, List.filter_cons, h]

theorem countKind_map_mkCrawlTask (ps : List String) (kind target : String) :
    countKind (ps.map (fun p => mkCrawlTask p kind)) target =
      if kind = target then ps.length else 0 := by
  induction ps with
  | nil => simp [countKind]
  | cons p ps ih =>
    rw [List.map_cons, countKind_cons, ih]
    by_cases h : kind = target
    · simp [mkCrawlTask, h]
      omega
    · simp [mkCrawlTask, h]

/-- Detail result listing 2 similar references, 1 pre-install reference
and 1 creator reference. -/
def exDetails : DetailsResult :=
  ⟨"app.pkg", "dev", some ["s1", "s2"], some ["p1"], none⟩

/-- C5 counterexample: on a detail result with 2 similar + 1 pre-install
cross-references the expansion emits 3 task drafts of kind
DETAILS/SIMILAR, not 4 as the claim's concrete instance states. -/
theorem dump_data_details_counts_counterexample :
    countKind (dump_data_details exDetails).2 CRAWL_DETAILS +
      countKind (dump_data_details exDetails).2 CRAWL_SIMILAR = 3 ∧
    ¬(countKind (dump_data_details exDetails).2 CRAWL_DETAILS +
        countKind (dump_data_details exDetails).2 CRAWL_SIMILAR = 4) := by
  constructor
  · rfl
  · intro h
    exact absurd h (by decide)

/-- C5 (amended): expansion of a single-item detail result emits exactly
one record draft, exactly one CREATOR task draft, exactly one DETAILS
task draft per cross-referenced package id (s + p + q in total), and no
SIMILAR task drafts — hence s + p + q drafts of kind DETAILS/SIMILAR and
1 + s + p + q task drafts in total. -/
theorem dump_data_details_counts (details : DetailsResult) :
    (dump_data_details details).1.length = 1 ∧
    countKind (dump_data_details details).2 CRAWL_CREATOR = 1 ∧
    countKind (dump_data_details details).2 CRAWL_DETAILS =
      (match details.similar with | some l => l.length | none => 0) +
      (match details.preInstall with | some l => l.length | none => 0) +
      (match details.postInstall with | some l => l.length | none => 0) ∧
    countKind (dump_data_details details).2 CRAWL_SIMILAR = 0 ∧
    (dump_data_details details).2.length = 1 +
      ((match details.similar with | some l => l.length | none => 0) +
       (match details.preInstall with | some l => l.length | none => 0) +
       (match details.postInstall with | some l => l.length | none => 0)) := by
  have hlen : ∀ o : Option (List String),
      (match o with | some l => l | none => ([] : List String)).length =
        (match o with | some l => l.length | none => 0) := by
    intro o
    cases o <;> rfl
  have hplen : (packagesFound details).length =
      (match details.similar with | some l => l.length | none => 0) +
      (match details.preInstall with | some l => l.length | none => 0) +
      (match details.postInstall with | some l => l.length | none => 0) := by
    unfold packagesFound
    rw [List.length_append, List.length_append, hlen, hlen, hlen]
  have h2 : (dump_data_details details).2 = mkCrawlTask details.creator CRAWL_CREATOR ::
      (packagesFound details).map (fun p => mkCrawlTask p CRAWL_DETAILS) := rfl
  refine ⟨rfl, ?_, ?_, ?_, ?_⟩
  · rw [h2, countKind_cons, countKind_map_mkCrawlTask]
    simp [mkCrawlTask, CRAWL_CREATOR, CRAWL_DETAILS]
  · rw [h2, countKind_cons, countKind_map_mkCrawlTask]
    simp only [mkCrawlTask]
    simp [CRAWL_CREATOR, CRAWL_DETAILS]
    rw [hplen]
  · rw [h2, countKind_cons, countKind_map_mkCrawlTask]
    simp [mkCrawlTask, CRAWL_CREATOR, CRAWL_DETAILS, CRAWL_SIMILAR]
  · rw [h2, List.length_cons, List.length_map, hplen]
    omega

/-- C5 witness: the amended count theorem applied to the example detail
result. -/
theorem dump_data_details_counts_witness :
    countKind (dump_data_details exDetails).2 CRAWL_CREATOR = 1 ∧
    countKind (dump_data_details exDetails).2 CRAWL_SIMILAR = 0 :=
  ⟨(dump_data_details_counts exDetails).2.1,
    (dump_data_details_counts exDetails).2.2.2.1⟩

/-! ### Binary download (`download_apk`, `create_apks_pool`) -/

/-- The filesystem as a map from paths to file contents. -/
abbrev FileSys := List (String × List Nat)

def writeFile (fs : FileSys) (path : String) (data : List Nat) : FileSys :=
  (path, data) :: fs.filter (fun e => decide (e.1 ≠ path))

def removeFile (fs : FileSys) (path : String) : FileSys :=
  fs.filter (fun e => decide (e.1 ≠ path))

def readFile (fs : FileSys) (path : String) : Option (List Nat) :=
  (fs.find? (fun e => decide (e.1 = path))).map Prod.snd

/-- `os.rename(src, dst)`: atomic move of the file at `src` to `dst`. -/
def renameFile (fs : FileSys) (src dst : String) : FileSys :=
  match readFile fs src with
  | none => fs
  | some d => writeFile (removeFile fs src) dst d

/-- Result of `play_store.download`: a payload, a falsy/empty payload
(`if not data: return`), or a raised `DownloadError`. -/
inductive FetchResult
  | payload : List Nat → FetchResult
  | empty : FetchResult
  | failed : String → FetchResult
deriving Repr, DecidableEq

/-- `download_apk` of `main.py`: on a payload, write
`output_path + ".temp"` and atomically rename it into place; on an empty
payload return without writing; on a `DownloadError` log and return. -/
def download_apk (fetch : FetchResult) (output_path : String) (fs : FileSys) : FileSys :=
  match fetch with
  | FetchResult.payload data =>
      renameFile (writeFile fs (output_path ++ ".temp") data)
        (output_path ++ ".temp") output_path
  | FetchResult.empty => fs
  | FetchResult.failed _ => fs

/-- The body of `create_apks_pool` from a successful claim to the lease
update: run `download_apk` for the claimed record, then unconditionally
`set_app_downloaded` (the call follows the retry loop with no condition on
whether a payload was obtained). -/
def pool_process_claimed (fetch : FetchResult) (rec : AppRecord) (rs : List AppRecord)
    (fs : FileSys) (output_path : String) (now : Int) : List AppRecord × FileSys :=
  (set_app_downloaded rs rec.id now, download_apk fetch output_path fs)

/-- C4 counterexample: when the fetch returns no payload the claimed
record's `download_end_time` is set to now — it does not stay absent as
the claim states. -/
theorem empty_fetch_counterexample :
    (pool_process_claimed FetchResult.empty exRec [exRec] [] "out.apk" 9).1 =
      [{ exRec with download_end_time := some 9 }] ∧
    ¬(∀ r ∈ (pool_process_claimed FetchResult.empty exRec [exRec] [] "out.apk" 9).1,
        r.download_end_time = none) := by
  constructor
  · rfl
  · intro h
    have := h { exRec with download_end_time := some 9 } (by decide)
    simp at this

/-- C4 (amended): if the binary fetch for a claimed record returns no
payload, no file is written (the filesystem is unchanged) and no error is
recorded on the record, but the driver still marks the record complete:
its `download_end_time` is set to now, so it is permanently retired rather
than left for retry. -/
theorem empty_fetch_marks_downloaded (rec u : AppRecord) (rs : List AppRecord)
    (fs : FileSys) (path : String) (now : Int) (i : Nat)
    (hnodup : (rs.map AppRecord.id).Nodup) (hget : rs[i]? = some u)
    (hid : u.id = rec.id) :
    (pool_process_claimed FetchResult.empty rec rs fs path now).2 = fs ∧
    (pool_process_claimed FetchResult.empty rec rs fs path now).1 =
      rs.set i { u with download_end_time := some now } := by
  refine ⟨rfl, ?_⟩
  show set_app_downloaded rs rec.id now = _
  unfold set_app_downloaded
  rw [← hid,
    fouFirst_key_set AppRecord.id (fun r => { r with download_end_time := some now })
      rs i u hnodup hget]

/-- C4 witness: the amended theorem applied to the singleton store holding
the leased example record. -/
theorem empty_fetch_marks_downloaded_witness :
    (pool_process_claimed FetchResult.empty exRec [exRec] [] "out.apk" 9).2 = [] ∧
    (pool_process_claimed FetchResult.empty exRec [exRec] [] "out.apk" 9).1 =
      [{ exRec with download_end_time := some 9 }] := by
  have h := empty_fetch_marks_downloaded exRec exRec [exRec] [] "out.apk" 9 0
    (by decide) (by decide) rfl
  exact ⟨h.1, h.2⟩

/-! ### `sanitize_filename` (`my_tools/file_tools.py`) -/

/-- The `keep_characters` tuple. -/
def keep_characters : List Char := [' ', '.', '_']

/-- The filter predicate `c.isalnum() or c in keep_characters`. -/
def keepChar (c : Char) : Bool :=
  c.isAlphanum || keep_characters.contains c

/-- Python's `str.rstrip()`: drop trailing whitespace. -/
def pyRstrip (l : List Char) : List Char :=
  (l.reverse.dropWhile Char.isWhitespace).reverse

/-- `sanitize_filename` of `my_tools/file_tools.py`: keep only
alphanumeric characters and `' '`, `'.'`, `'_'`, then strip trailing
whitespace. -/
def sanitize_filename (filename : String) : String :=
  String.mk (pyRstrip (filename.data.filter keepChar))

theorem mem_pyRstrip (l : List Char) (c : Char) (h : c ∈ pyRstrip l) : c ∈ l := by
  unfold pyRstrip at h
  rw [List.mem_reverse] at h
  have hsub := (List.dropWhile_sublist Char.isWhitespace (l := l.reverse)).subset h
  rwa [List.mem_reverse] at hsub

theorem head_dropWhile_not {α : Type} (p : α → Bool) (l : List α) (c : α)
    (h : (l.dropWhile p).head? = some c) : p c = false := by
  induction l with
  | nil => simp [List.dropWhile] at h
  | cons a as ih =>
    by_cases hp : p a = true
    · rw [List.dropWhile_cons_of_pos hp] at h
      exact ih h
    · simp only [Bool.not_eq_true] at hp
      rw [List.dropWhile_cons_of_neg (by simp [hp])] at h
      obtain rfl : a = c := by simpa using h
      exact hp

theorem dropWhile_dropWhile {α : Type} (p : α → Bool) (l : List α) :
    (l.dropWhile p).dropWhile p = l.dropWhile p := by
  induction l with
  | nil => rfl
  | cons a as ih =>
    by_cases hp : p a = true
    · rw [List.dropWhile_cons_of_pos hp]
      exact ih
    · rw [List.dropWhile_cons_of_neg (by simp [hp])]
      rw [List.dropWhile_cons_of_neg (by simp [hp])]

theorem pyRstrip_pyRstrip (l : List Char) : pyRstrip (pyRstrip l) = pyRstrip l := by
  unfold pyRstrip
  rw [List.reverse_reverse, dropWhile_dropWhile]

/-- C10: `sanitize_filename` returns only alphanumerics, spaces, dots and
underscores, never ends in whitespace, and is idempotent. -/
theorem sanitize_filename_spec (filename : String) :
    (∀ c ∈ (sanitize_filename filename).data,
      c.isAlphanum = true ∨ c = ' ' ∨ c = '.' ∨ c = '_') ∧
    (∀ c, (sanitize_filename filename).data.getLast? = some c →
      c.isWhitespace = false) ∧
    sanitize_filename (sanitize_filename filename) = sanitize_filename filename := by
  have hdata : (sanitize_filename filename).data =
      pyRstrip (filename.data.filter keepChar) := rfl
  have hkeep : ∀ c ∈ (sanitize_filename filename).data, keepChar c = true := by
    intro c hc
    rw [hdata] at hc
    exact (List.mem_filter.mp (mem_pyRstrip _ c hc)).2
  refine ⟨?_, ?_, ?_⟩
  · intro c hc
    have hk := hkeep c hc
    simp only [keepChar, Bool.or_eq_true] at hk
    rcases hk with h | h
    · exact Or.inl h
    · have helem : List.elem c keep_characters = true := h
      have hmem : c ∈ keep_characters := List.elem_iff.mp helem
      simp only [keep_characters, List.mem_cons, List.not_mem_nil, or_false] at hmem
      rcases hmem with h1 | h1 | h1
      · exact Or.inr (Or.inl h1)
      · exact Or.inr (Or.inr (Or.inl h1))
      · exact Or.inr (Or.inr (Or.inr h1))
  · intro c hc
    rw [hdata] at hc
    unfold pyRstrip at hc
    rw [List.getLast?_reverse] at hc
    exact head_dropWhile_not Char.isWhitespace _ c hc
  · have hfil : (sanitize_filename filename).data.filter keepChar =
        (sanitize_filename filename).data :=
      List.filter_eq_self.mpr (fun c hc => hkeep c hc)
    show String.mk (pyRstrip ((sanitize_filename filename).data.filter keepChar)) =
      sanitize_filename filename
    rw [hfil, hdata, pyRstrip_pyRstrip]
    rfl

/-- C10 witness: idempotence instantiated on a concrete filename. -/
theorem sanitize_filename_spec_witness :
    sanitize_filename (sanitize_filename "a b.apk  ") = sanitize_filename "a b.apk  " :=
  (sanitize_filename_spec "a b.apk  ").2.2

end PlaystoreCrawler
